import Mathlib

/-!
Verification of the YScanF buffered input parser (yscanf2.h / yscanf3.h).

The development shallowly embeds the two headers of the repository:

* the buffered byte source of yscanf3.h (global buffer, latched yeof flag,
  yget / ypeek refill protocol) is modelled by the structure YBuf below,
  with the underlying stream represented as the list of byte chunks that
  successive fread calls return (the empty list meaning fread reports 0)
  and a counter of fread invocations;

* the token readers and the two dispatchers are modelled as pure functions
  over the byte sequence the buffered source yields (a List Char, with the
  empty list playing the role of EOF, so yget is "pop the head" and ypeek
  is "look at the head"); the supporting lemma yget_yflatten below ties the
  cursor model to this sequence view.

C machine integers are modelled as Int / Nat with explicit two's-complement
wrapping (wrap64 / wrap32 and Nat mod 2^64 / 2^32) exactly where the C
arithmetic can wrap; the C double values of the floating-point readers are
idealised as exact rationals (their success / failure and the bytes they
consume, which is all the claims depend on, are modelled bit-exactly from
the source; overflow of the C int exponent accumulator, signed overflow
being undefined behaviour in C, is not modelled).

EOF is the C value -1; the dispatchers return an Int that is either the
conversion count, -1 for end-of-input with no conversions (cnt?cnt:EOF in
the source), or -1 for an unrecognized directive (return -1 in the source).
-/

/-- C isspace over the single-byte characters the scanner handles:
space, tab, newline, vertical tab, form feed, carriage return. -/
def ySpace (c : Char) : Bool :=
  c == ' ' || c == '\t' || c == '\n' || c == '\x0B' || c == '\x0C' || c == '\r'

/-- Two's-complement wrap of an Int to the signed 64-bit range,
modelling C long long / int64_t arithmetic overflow. -/
def wrap64 (z : Int) : Int := (z + 2 ^ 63) % 2 ^ 64 - 2 ^ 63

/-- Two's-complement wrap of an Int to the signed 32-bit range,
modelling the C cast (int) of a long long value. -/
def wrap32 (z : Int) : Int := (z + 2 ^ 31) % 2 ^ 32 - 2 ^ 31

/-! ## The buffered byte source of yscanf3.h (yget / ypeek / yeof) -/

/-- The state of the buffered byte source of yscanf3.h.
buf is the unread part of the buffer (the bytes between yptr and yend),
yeof the latched end-of-stream flag, chunks the byte blocks the underlying
stream will return on successive fread calls ([] meaning fread returns 0,
which per C stream semantics is permanent), and reads counts how many
times fread has been invoked. -/
structure YBuf where
  buf    : List Char
  yeof   : Bool
  chunks : List (List Char)
  reads  : Nat
deriving DecidableEq

/-- yget of yscanf3.h: if the buffer is drained, return EOF when the yeof
latch is set, otherwise refill via fread (counted in reads), latching
yeof when the stream reports zero bytes; a produced byte is consumed. -/
def yget (st : YBuf) : Option Char × YBuf :=
  match st.buf with
  | c :: rest => (some c, { st with buf := rest })
  | [] =>
    if st.yeof then (none, st)
    else
      match st.chunks with
      | [] => (none, { st with yeof := true, reads := st.reads + 1 })
      | ch :: chs =>
        match ch with
        | [] => (none, { st with yeof := true, chunks := chs, reads := st.reads + 1 })
        | c :: cr => (some c, { st with buf := cr, chunks := chs, reads := st.reads + 1 })

/-- ypeek of yscanf3.h: identical to yget but the produced byte is not
consumed (it stays at the front of the buffer). -/
def ypeek (st : YBuf) : Option Char × YBuf :=
  match st.buf with
  | c :: rest => (some c, { st with buf := c :: rest })
  | [] =>
    if st.yeof then (none, st)
    else
      match st.chunks with
      | [] => (none, { st with yeof := true, reads := st.reads + 1 })
      | ch :: chs =>
        match ch with
        | [] => (none, { st with yeof := true, chunks := chs, reads := st.reads + 1 })
        | c :: cr => (some c, { st with buf := c :: cr, chunks := chs, reads := st.reads + 1 })

/-- The byte sequence a buffered source will deliver: the unread buffer
followed by the future fread chunks. -/
def yflatten (st : YBuf) : List Char := st.buf ++ st.chunks.flatten

/-! ## The token readers of yscanf3.h over the delivered byte sequence

The readers below are transcribed from yscanf3.h, acting on the List Char
of bytes the buffered source delivers; [] is EOF. Each yread_..._ok
returns the parsed value as an Option (none exactly when the C function
returns 0 without writing through its out pointer) together with the
rest of the input. -/

/-- yskip_space of yscanf3.h: consume bytes while ypeek yields a
whitespace character. -/
def yskipSpace : List Char → List Char
  | [] => []
  | c :: r => if ySpace c then yskipSpace r else c :: r

/-- The digit-accumulation loop of yread_int_ok / yread_ll_ok:
x = x*10 + (yget()-'0') on a C long long while ypeek yields a digit. -/
def yreadIntLoop (x : Int) : List Char → Int × List Char
  | [] => (x, [])
  | c :: r =>
    if c.isDigit then yreadIntLoop (wrap64 (x * 10 + ((c.toNat : Int) - 48))) r
    else (x, c :: r)

/-- Body of yread_int_ok after its initial yskip_space: optional single
sign consumed by yget, then a mandatory digit checked by ypeek, then the
accumulation loop; the result is cast to int, i.e. wrapped to 32 bits. -/
def yreadIntCore : List Char → Option Int × List Char
  | [] => (none, [])
  | c :: r =>
    if c = '+' || c = '-' then
      match r with
      | [] => (none, [])
      | d :: _ =>
        if d.isDigit then
          match yreadIntLoop 0 r with
          | (x, s3) => (some (wrap32 (x * (if c = '-' then -1 else 1))), s3)
        else (none, r)
    else
      if c.isDigit then
        match yreadIntLoop 0 (c :: r) with
        | (x, s3) => (some (wrap32 x), s3)
      else (none, c :: r)

/-- yread_int_ok of yscanf3.h. -/
def yread_int_ok (s : List Char) : Option Int × List Char := yreadIntCore (yskipSpace s)

/-- Body of yread_ll_ok: as yreadIntCore but the long long value is
stored directly (*out = x*sign). -/
def yreadLLCore : List Char → Option Int × List Char
  | [] => (none, [])
  | c :: r =>
    if c = '+' || c = '-' then
      match r with
      | [] => (none, [])
      | d :: _ =>
        if d.isDigit then
          match yreadIntLoop 0 r with
          | (x, s3) => (some (wrap64 (x * (if c = '-' then -1 else 1))), s3)
        else (none, r)
    else
      if c.isDigit then
        match yreadIntLoop 0 (c :: r) with
        | (x, s3) => (some (wrap64 x), s3)
      else (none, c :: r)

/-- yread_ll_ok of yscanf3.h. -/
def yread_ll_ok (s : List Char) : Option Int × List Char := yreadLLCore (yskipSpace s)

/-- The digit-accumulation loop of yread_uint_ok / yread_ull_ok on a C
unsigned long long (arithmetic modulo 2^64). -/
def yreadUIntLoop (x : Nat) : List Char → Nat × List Char
  | [] => (x, [])
  | c :: r =>
    if c.isDigit then yreadUIntLoop ((x * 10 + (c.toNat - 48)) % 2 ^ 64) r
    else (x, c :: r)

/-- Body of yread_uint_ok after its initial yskip_space: no sign is
accepted; a leading non-digit (or EOF) fails without consuming it;
the stored value is the accumulator cast to unsigned (mod 2^32). -/
def yreadUIntCore : List Char → Option Nat × List Char
  | [] => (none, [])
  | c :: r =>
    if c.isDigit then
      match yreadUIntLoop 0 (c :: r) with
      | (x, s3) => (some (x % 2 ^ 32), s3)
    else (none, c :: r)

/-- yread_uint_ok of yscanf3.h. -/
def yread_uint_ok (s : List Char) : Option Nat × List Char := yreadUIntCore (yskipSpace s)

/-- Body of yread_ull_ok: as yreadUIntCore but stored at full width. -/
def yreadULLCore : List Char → Option Nat × List Char
  | [] => (none, [])
  | c :: r =>
    if c.isDigit then
      match yreadUIntLoop 0 (c :: r) with
      | (x, s3) => (some x, s3)
    else (none, c :: r)

/-- yread_ull_ok of yscanf3.h. -/
def yread_ull_ok (s : List Char) : Option Nat × List Char := yreadULLCore (yskipSpace s)

/-- Integer-part loop of yread_double_ok (x = x*10 + digit on a double,
idealised as a rational). -/
def yreadQIntLoop (x : ℚ) : List Char → ℚ × List Char
  | [] => (x, [])
  | c :: r =>
    if c.isDigit then yreadQIntLoop (x * 10 + ((c.toNat : ℚ) - 48)) r
    else (x, c :: r)

/-- Fraction loop of yread_double_ok: frac = frac*10 + digit,
base = base*10 per digit. -/
def yreadFracLoop (fr b : ℚ) : List Char → ℚ × ℚ × List Char
  | [] => (fr, b, [])
  | c :: r =>
    if c.isDigit then yreadFracLoop (fr * 10 + ((c.toNat : ℚ) - 48)) (b * 10) r
    else (fr, b, c :: r)

/-- Exponent digit loop of yread_double_ok (ep = ep*10 + digit). -/
def yreadEpLoop (e : Nat) : List Char → Nat × List Char
  | [] => (e, [])
  | c :: r =>
    if c.isDigit then yreadEpLoop (e * 10 + (c.toNat - 48)) r
    else (e, c :: r)

/-- Exponent tail of yread_double_ok, entered after the e/E byte has been
consumed: optional sign, digit loop, then p = 10^ep is multiplied or
divided in. -/
def yreadDblExpTail (x1 : ℚ) (r4 : List Char) : Option ℚ × List Char :=
  match r4 with
  | [] => (some x1, [])
  | c2 :: r5 =>
    match (if c2 = '+' || c2 = '-' then ((if c2 = '-' then (-1 : Int) else 1), r5)
           else (1, c2 :: r5)) with
    | (es, s5) =>
      match yreadEpLoop 0 s5 with
      | (ep, s6) =>
        if es < 0 then (some (x1 / 10 ^ ep), s6) else (some (x1 * 10 ^ ep), s6)

/-- Dispatch on the optional e/E byte after the mantissa of
yread_double_ok (checked with ypeek, consumed only if present). -/
def yreadDblExpPart (x1 : ℚ) (s4 : List Char) : Option ℚ × List Char :=
  match s4 with
  | 'e' :: r4 => yreadDblExpTail x1 r4
  | 'E' :: r4 => yreadDblExpTail x1 r4
  | _ => (some x1, s4)

/-- Mantissa of yread_double_ok once the sign is fixed: integer part,
optional .fraction, then the optional exponent. -/
def ydblBody (sign : ℚ) (s2 : List Char) : Option ℚ × List Char :=
  match yreadQIntLoop 0 s2 with
  | (x, s3) =>
    match s3 with
    | '.' :: r3 =>
      match yreadFracLoop 0 1 r3 with
      | (fr, b, s4) => yreadDblExpPart (sign * (x + fr / b)) s4
    | _ => yreadDblExpPart (sign * x) s3

/-- Body of yread_double_ok after its initial yskip_space: optional sign,
then the next byte must be a digit or a dot. -/
def yreadDblCore : List Char → Option ℚ × List Char
  | [] => (none, [])
  | c :: r =>
    if c = '+' || c = '-' then
      match r with
      | [] => (none, [])
      | d :: _ =>
        if d.isDigit || d = '.' then ydblBody (if c = '-' then (-1 : ℚ) else 1) r
        else (none, r)
    else
      if c.isDigit || c = '.' then ydblBody 1 (c :: r)
      else (none, c :: r)

/-- yread_double_ok of yscanf3.h (value idealised as an exact rational). -/
def yread_double_ok (s : List Char) : Option ℚ × List Char := yreadDblCore (yskipSpace s)

/-- Word loop of yread_str_ok: bytes are consumed while ypeek yields a
non-whitespace byte. -/
def yreadStrLoop : List Char → List Char × List Char
  | [] => ([], [])
  | c :: r =>
    if ySpace c then ([], c :: r)
    else
      match yreadStrLoop r with
      | (t, rest) => (c :: t, rest)

/-- Body of yread_str_ok after its initial yskip_space: fails only on
immediate EOF. -/
def yreadStrCore : List Char → Option (List Char) × List Char
  | [] => (none, [])
  | c :: r =>
    match yreadStrLoop (c :: r) with
    | (t, rest) => (some t, rest)

/-- yread_str_ok of yscanf3.h. -/
def yread_str_ok (s : List Char) : Option (List Char) × List Char := yreadStrCore (yskipSpace s)

/-! ## The line readers of yscanf3.h -/

/-- A line-terminator byte. -/
def yIsTerm (c : Char) : Bool := c == '\n' || c == '\r'

/-- The shared inner loop of ygetline_ok / yread_line_ok: the current
byte c has already been consumed by yget; non-terminator bytes are stored
while fewer than maxlen-1 bytes are stored (excess bytes are consumed and
dropped); on a carriage return an immediately following newline is also
consumed; the accumulated line and the remaining input are returned. -/
def ygetLoop (maxlen : Nat) (acc : List Char) (c : Char) (s : List Char) :
    List Char × List Char :=
  if c = '\n' then (acc, s)
  else if c = '\r' then (acc, if s.head? = some '\n' then s.tail else s)
  else
    match s with
    | [] => (if acc.length < maxlen - 1 then acc ++ [c] else acc, [])
    | d :: r => ygetLoop maxlen (if acc.length < maxlen - 1 then acc ++ [c] else acc) d r

/-- ygetline_ok of yscanf3.h: fails only when the very first yget
reports EOF. -/
def ygetline_ok (maxlen : Nat) (s : List Char) : Option (List Char) × List Char :=
  match s with
  | [] => (none, [])
  | c :: r =>
    match ygetLoop maxlen [] c r with
    | (line, rest) => (some line, rest)

/-- yread_line_ok of yscanf3.h: like ygetline_ok but leading newline and
carriage-return bytes are consumed and discarded first, and EOF reached
while discarding them also fails. -/
def yread_line_ok (maxlen : Nat) (s : List Char) : Option (List Char) × List Char :=
  match s.dropWhile yIsTerm with
  | [] => (none, [])
  | c :: r =>
    match ygetLoop maxlen [] c r with
    | (line, rest) => (some line, rest)

/-- The remainder of the stream once the line content and a single line
terminator (a newline, or a carriage return optionally followed by a
newline) have been consumed; the argument is the stream positioned at
the terminator (or at its end). -/
def lineSpecRest (t : List Char) : List Char :=
  match t with
  | [] => []
  | '\r' :: '\n' :: r => r
  | _ :: r => r

/-- The capacity-aware line read as the specification words it: no token
exactly on immediate end of stream; otherwise the line is the run of
bytes before the first line terminator, truncated to maxlen - 1 stored
bytes, and the whole run plus one terminator is consumed. -/
def ygetlineSpec (maxlen : Nat) (s : List Char) : Option (List Char) × List Char :=
  match s with
  | [] => (none, [])
  | _ :: _ =>
    (some ((s.takeWhile fun c => !(yIsTerm c)).take (maxlen - 1)),
     lineSpecRest (s.dropWhile fun c => !(yIsTerm c)))

/-! ## The parsers and readers of yscanf2.h

yscanf2.h consumes with ynext_char instead of peeking, so its parsers
leave the stream positioned one byte past the token. -/

/-- The digit-discarding loop run by yparse_int / yparse_uint once
overflow is detected: while((c=ynext_char())>='0'&&c<='9'); - it consumes
the remaining digits and the first non-digit byte (if any). -/
def ySkipDigits1 : List Char → List Char
  | [] => []
  | c :: r => if c.isDigit then ySkipDigits1 r else r

/-- The accumulation loop of yparse_int: the current byte c is already
consumed; next = x*10 + digit on int64 (wrapped), and overflow is flagged
by the source's wrap-around test next < x. -/
def yparseIntDigits (x : Int) (c : Char) (s : List Char) : Int × Bool × List Char :=
  if c.isDigit then
    let nx := wrap64 (x * 10 + ((c.toNat : Int) - 48))
    if nx < x then (x, true, ySkipDigits1 s)
    else
      match s with
      | [] => (nx, false, [])
      | d :: r => yparseIntDigits nx d r
  else (x, false, s)

/-- yparse_int of yscanf2.h: skip whitespace, consume an optional sign,
require a digit (the overflow flag doubles as the malformed-token flag:
a missing digit sets it and yields 0); returns sign * accumulator, the
flag, and the rest of the input. -/
def yparse_int (s : List Char) : Int × Bool × List Char :=
  match yskipSpace s with
  | [] => (0, true, [])
  | c :: r =>
    match (if c = '-' then ((-1 : Int), r) else if c = '+' then ((1 : Int), r)
           else (1, c :: r)) with
    | (sign, s2) =>
      match s2 with
      | [] => (0, true, [])
      | c2 :: r2 =>
        if c2.isDigit then
          match yparseIntDigits 0 c2 r2 with
          | (x, ovf, s3) => (sign * x, ovf, s3)
        else (0, true, r2)

/-- The accumulation loop of yparse_uint on uint64 (arithmetic mod 2^64),
with the same next < x wrap-around test. -/
def yparseUIntDigits (x : Nat) (c : Char) (s : List Char) : Nat × Bool × List Char :=
  if c.isDigit then
    let nx := (x * 10 + (c.toNat - 48)) % 2 ^ 64
    if nx < x then (x, true, ySkipDigits1 s)
    else
      match s with
      | [] => (nx, false, [])
      | d :: r => yparseUIntDigits nx d r
  else (x, false, s)

/-- yparse_uint of yscanf2.h: no sign is accepted; a consumed non-digit
first byte (or EOF) sets the flag and yields 0. -/
def yparse_uint (s : List Char) : Nat × Bool × List Char :=
  match yskipSpace s with
  | [] => (0, true, [])
  | c :: r =>
    if c.isDigit then
      match yparseUIntDigits 0 c r with
      | (x, ovf, s3) => (x, ovf, s3)
    else (0, true, r)

/-- yread_int of yscanf2.h: saturate to the int32 bounds when the parser
flagged overflow or the value is out of the 32-bit range. -/
def yread_int2 (s : List Char) : Int × List Char :=
  match yparse_int s with
  | (val, ovf, r) =>
    if ovf = true ∨ val > 2147483647 ∨ val < -2147483648 then
      ((if val > 0 then 2147483647 else -2147483648), r)
    else (val, r)

/-- yread_ll of yscanf2.h: saturate to the int64 bounds when the parser
flagged overflow. -/
def yread_ll2 (s : List Char) : Int × List Char :=
  match yparse_int s with
  | (val, ovf, r) =>
    if ovf then ((if val > 0 then 9223372036854775807 else -9223372036854775808), r)
    else (val, r)

/-- yread_uint of yscanf2.h: saturate to UINT32_MAX on flagged overflow
or a value above the 32-bit range. -/
def yread_uint2 (s : List Char) : Nat × List Char :=
  match yparse_uint s with
  | (val, ovf, r) =>
    if ovf = true ∨ val > 4294967295 then (4294967295, r) else (val, r)

/-- yread_ull of yscanf2.h: saturate to ULLONG_MAX on flagged overflow. -/
def yread_ull2 (s : List Char) : Nat × List Char :=
  match yparse_uint s with
  | (val, ovf, r) => if ovf then (18446744073709551615, r) else (val, r)

/-- Integer-part loop of yread_double of yscanf2.h (consuming style):
returns the accumulated value, the consumed terminating byte (none at
EOF), and the rest. -/
def yreadD2Digits (x : ℚ) (c : Char) (s : List Char) : ℚ × Option Char × List Char :=
  if c.isDigit then
    match s with
    | [] => (x * 10 + ((c.toNat : ℚ) - 48), none, [])
    | d :: r => yreadD2Digits (x * 10 + ((c.toNat : ℚ) - 48)) d r
  else (x, some c, s)

/-- Fraction loop of yread_double of yscanf2.h (consuming style); the
terminating byte is consumed and discarded. -/
def yreadD2Frac (fr b : ℚ) (c : Char) (s : List Char) : ℚ × ℚ × List Char :=
  if c.isDigit then
    match s with
    | [] => (fr * 10 + ((c.toNat : ℚ) - 48), b * 10, [])
    | d :: r => yreadD2Frac (fr * 10 + ((c.toNat : ℚ) - 48)) (b * 10) d r
  else (fr, b, s)

/-- yread_double of yscanf2.h (no exponent handling; value idealised as
an exact rational): note it consumes one byte past the numeral. -/
def yread_double2 (s : List Char) : ℚ × List Char :=
  match yskipSpace s with
  | [] => (0, [])
  | c :: r =>
    match (if c = '-' then ((-1 : ℚ), r) else if c = '+' then ((1 : ℚ), r)
           else (1, c :: r)) with
    | (sign, s2) =>
      match s2 with
      | [] => (0, [])
      | c2 :: r2 =>
        match yreadD2Digits 0 c2 r2 with
        | (x, copt, s3) =>
          match copt with
          | some '.' =>
            match s3 with
            | [] => (sign * x, [])
            | c3 :: r3 =>
              match yreadD2Frac 0 1 c3 r3 with
              | (fr, b, s4) => (sign * (x + fr / b), s4)
          | _ => (sign * x, s3)

/-- Exponent digit loop of yread_double_exp (consuming style). -/
def yreadExp2Digits (e : Nat) (c : Char) (s : List Char) : Nat × List Char :=
  if c.isDigit then
    match s with
    | [] => (e * 10 + (c.toNat - 48), [])
    | d :: r => yreadExp2Digits (e * 10 + (c.toNat - 48)) d r
  else (e, s)

/-- The capped positive power of ten of yread_double_exp: power starts at
1e308 when the exponent is at least 308, otherwise grows from 1.0 by
factors of ten, breaking once it exceeds 1e300 (so at 10^301). -/
def ypowCap (ep : Nat) : ℚ := if 308 ≤ ep then 10 ^ 308 else 10 ^ min ep 301

/-- Exponent tail of yread_double_exp, entered after the e/E byte has
been consumed: one byte is consumed, an optional sign read, the digit
loop run, and the capped power applied. -/
def yreadDExpTail2 (x : ℚ) (r : List Char) : ℚ × List Char :=
  match r with
  | [] => (x, [])
  | c2 :: r2 =>
    match (if c2 = '-' then ((-1 : Int), r2) else if c2 = '+' then ((1 : Int), r2)
           else (1, c2 :: r2)) with
    | (es, s5) =>
      match s5 with
      | [] => (x, [])
      | c3 :: r3 =>
        match yreadExp2Digits 0 c3 r3 with
        | (ep, s6) => (if es < 0 then x / 10 ^ ep else x * ypowCap ep, s6)

/-- yread_double_exp of yscanf2.h: yread_double, then an e/E checked with
ypeek_char and consumed only if present. -/
def yread_double_exp2 (s : List Char) : ℚ × List Char :=
  match yread_double2 s with
  | (x, s1) =>
    match s1 with
    | 'e' :: r => yreadDExpTail2 x r
    | 'E' :: r => yreadDExpTail2 x r
    | _ => (x, s1)

/-- Word loop of yread_string of yscanf2.h: consuming style, so the
terminating whitespace byte is consumed and discarded. -/
def yreadStr2Loop : List Char → List Char × List Char
  | [] => ([], [])
  | c :: r =>
    if ySpace c then ([], r)
    else
      match yreadStr2Loop r with
      | (t, rest) => (c :: t, rest)

/-- yread_string of yscanf2.h (it never fails; at EOF it stores the
empty token). -/
def yread_string2 (s : List Char) : List Char × List Char := yreadStr2Loop (yskipSpace s)

/-! ## The dispatchers

The variadic output slots are modelled as a list of tagged values: the
dispatcher walks the argument list with an index k (va_arg), overwriting
the k-th slot exactly when the C code writes through the corresponding
pointer, and leaving it untouched otherwise. -/

/-- A typed output slot of a dispatch call. -/
inductive YVal where
  | i   : Int → YVal
  | u   : Nat → YVal
  | ll  : Int → YVal
  | ull : Nat → YVal
  | d   : ℚ → YVal
  | str : List Char → YVal
  | c   : Char → YVal
deriving DecidableEq

/-- The value yscanf of yscanf3.h returns when a reader reports no value:
cnt?cnt:EOF, with EOF = -1. -/
def yeofRet (cnt : Nat) : Int := if cnt = 0 then -1 else (cnt : Int)

/-- yscanf of yscanf3.h: fmt is the remaining format string, s the
remaining input, args the output slots, k the index of the next slot
(va_arg position), cnt the count of conversions completed so far.
Whitespace in the format skips input whitespace immediately; a literal
non-percent byte only advances the format; a percent directive runs the
matching reader, returning cnt?cnt:EOF when it reports no value and -1
when the tag is unrecognized. -/
def yscanf3Run : List Char → List Char → List YVal → Nat → Nat → Int × List Char × List YVal
  | [], s, args, _, cnt => ((cnt : Int), s, args)
  | f :: fs, s, args, k, cnt =>
    if ySpace f then yscanf3Run fs (yskipSpace s) args k cnt
    else if f ≠ '%' then yscanf3Run fs s args k cnt
    else
      match fs with
      | 'd' :: rest =>
        match yread_int_ok s with
        | (none, s1) => (yeofRet cnt, s1, args)
        | (some v, s1) => yscanf3Run rest s1 (args.set k (YVal.i v)) (k + 1) (cnt + 1)
      | 'u' :: rest =>
        match yread_uint_ok s with
        | (none, s1) => (yeofRet cnt, s1, args)
        | (some v, s1) => yscanf3Run rest s1 (args.set k (YVal.u v)) (k + 1) (cnt + 1)
      | 'l' :: 'l' :: 'd' :: rest =>
        match yread_ll_ok s with
        | (none, s1) => (yeofRet cnt, s1, args)
        | (some v, s1) => yscanf3Run rest s1 (args.set k (YVal.ll v)) (k + 1) (cnt + 1)
      | 'l' :: 'l' :: 'u' :: rest =>
        match yread_ull_ok s with
        | (none, s1) => (yeofRet cnt, s1, args)
        | (some v, s1) => yscanf3Run rest s1 (args.set k (YVal.ull v)) (k + 1) (cnt + 1)
      | 'l' :: 'l' :: _ => (-1, s, args)
      | 'l' :: _ => (-1, s, args)
      | 'f' :: rest =>
        match yread_double_ok s with
        | (none, s1) => (yeofRet cnt, s1, args)
        | (some v, s1) => yscanf3Run rest s1 (args.set k (YVal.d v)) (k + 1) (cnt + 1)
      | 'e' :: rest =>
        match yread_double_ok s with
        | (none, s1) => (yeofRet cnt, s1, args)
        | (some v, s1) => yscanf3Run rest s1 (args.set k (YVal.d v)) (k + 1) (cnt + 1)
      | 'g' :: rest =>
        match yread_double_ok s with
        | (none, s1) => (yeofRet cnt, s1, args)
        | (some v, s1) => yscanf3Run rest s1 (args.set k (YVal.d v)) (k + 1) (cnt + 1)
      | 's' :: rest =>
        match yread_str_ok s with
        | (none, s1) => (yeofRet cnt, s1, args)
        | (some v, s1) => yscanf3Run rest s1 (args.set k (YVal.str v)) (k + 1) (cnt + 1)
      | 'c' :: rest =>
        match s with
        | [] => (yeofRet cnt, [], args)
        | ch :: s1 => yscanf3Run rest s1 (args.set k (YVal.c ch)) (k + 1) (cnt + 1)
      | _ => (-1, s, args)

/-- Control-flow shadow of yscanf3Run that records whether the dispatch
reaches a percent directive with an unrecognized tag. It mirrors the
dispatcher byte for byte but carries no argument list and no count, so it
is by construction independent of how many conversions succeeded. -/
def hitsBadTag : List Char → List Char → Bool
  | [], _ => false
  | f :: fs, s =>
    if ySpace f then hitsBadTag fs (yskipSpace s)
    else if f ≠ '%' then hitsBadTag fs s
    else
      match fs with
      | 'd' :: rest =>
        match yread_int_ok s with
        | (none, _) => false
        | (some _, s1) => hitsBadTag rest s1
      | 'u' :: rest =>
        match yread_uint_ok s with
        | (none, _) => false
        | (some _, s1) => hitsBadTag rest s1
      | 'l' :: 'l' :: 'd' :: rest =>
        match yread_ll_ok s with
        | (none, _) => false
        | (some _, s1) => hitsBadTag rest s1
      | 'l' :: 'l' :: 'u' :: rest =>
        match yread_ull_ok s with
        | (none, _) => false
        | (some _, s1) => hitsBadTag rest s1
      | 'l' :: 'l' :: _ => true
      | 'l' :: _ => true
      | 'f' :: rest =>
        match yread_double_ok s with
        | (none, _) => false
        | (some _, s1) => hitsBadTag rest s1
      | 'e' :: rest =>
        match yread_double_ok s with
        | (none, _) => false
        | (some _, s1) => hitsBadTag rest s1
      | 'g' :: rest =>
        match yread_double_ok s with
        | (none, _) => false
        | (some _, s1) => hitsBadTag rest s1
      | 's' :: rest =>
        match yread_str_ok s with
        | (none, _) => false
        | (some _, s1) => hitsBadTag rest s1
      | 'c' :: rest =>
        match s with
        | [] => false
        | _ :: s1 => hitsBadTag rest s1
      | _ => true

/-- yscanf of yscanf2.h: same shape as yscanf3Run but with the deferred
whitespace flag skip (set by format whitespace, cleared by literals and
after every conversion, applied via yskip_space_input at the start of a
conversion), readers that cannot fail (except the character read at EOF),
and the percent-l-f double tag. -/
def yscanf2Run : List Char → List Char → List YVal → Nat → Nat → Bool → Int × List Char × List YVal
  | [], s, args, _, cnt, _ => ((cnt : Int), s, args)
  | f :: fs, s, args, k, cnt, skip =>
    if ySpace f then yscanf2Run fs s args k cnt true
    else if f ≠ '%' then yscanf2Run fs s args k cnt false
    else
      match fs with
      | 'd' :: rest =>
        match yread_int2 (if skip then yskipSpace s else s) with
        | (v, s1) => yscanf2Run rest s1 (args.set k (YVal.i v)) (k + 1) (cnt + 1) false
      | 'u' :: rest =>
        match yread_uint2 (if skip then yskipSpace s else s) with
        | (v, s1) => yscanf2Run rest s1 (args.set k (YVal.u v)) (k + 1) (cnt + 1) false
      | 's' :: rest =>
        match yread_string2 (if skip then yskipSpace s else s) with
        | (t, s1) => yscanf2Run rest s1 (args.set k (YVal.str t)) (k + 1) (cnt + 1) false
      | 'c' :: rest =>
        match (if skip then yskipSpace s else s) with
        | [] => (yeofRet cnt, [], args)
        | ch :: s1 => yscanf2Run rest s1 (args.set k (YVal.c ch)) (k + 1) (cnt + 1) false
      | 'l' :: 'l' :: 'd' :: rest =>
        match yread_ll2 (if skip then yskipSpace s else s) with
        | (v, s1) => yscanf2Run rest s1 (args.set k (YVal.ll v)) (k + 1) (cnt + 1) false
      | 'l' :: 'l' :: 'u' :: rest =>
        match yread_ull2 (if skip then yskipSpace s else s) with
        | (v, s1) => yscanf2Run rest s1 (args.set k (YVal.ull v)) (k + 1) (cnt + 1) false
      | 'l' :: 'l' :: _ => (-1, s, args)
      | 'l' :: 'f' :: rest =>
        match yread_double2 (if skip then yskipSpace s else s) with
        | (v, s1) => yscanf2Run rest s1 (args.set k (YVal.d v)) (k + 1) (cnt + 1) false
      | 'l' :: _ => (-1, s, args)
      | 'g' :: rest =>
        match yread_double_exp2 (if skip then yskipSpace s else s) with
        | (v, s1) => yscanf2Run rest s1 (args.set k (YVal.d v)) (k + 1) (cnt + 1) false
      | 'e' :: rest =>
        match yread_double_exp2 (if skip then yskipSpace s else s) with
        | (v, s1) => yscanf2Run rest s1 (args.set k (YVal.d v)) (k + 1) (cnt + 1) false
      | 'f' :: rest =>
        match yread_double_exp2 (if skip then yskipSpace s else s) with
        | (v, s1) => yscanf2Run rest s1 (args.set k (YVal.d v)) (k + 1) (cnt + 1) false
      | _ => (-1, s, args)

/-! ## Supporting lemmas -/

/-- Bridge between the cursor model and the byte-sequence view: in any
well-formed source state (the latch implies no further chunks, and fread
never returns an empty block before end of stream), yget produces exactly
the head of the delivered byte sequence and leaves exactly its tail. -/
theorem yget_yflatten (st : YBuf) (h1 : st.yeof = true → st.chunks = [])
    (h2 : ∀ ch ∈ st.chunks, ch ≠ []) :
    (yget st).1 = (yflatten st).head? ∧ yflatten (yget st).2 = (yflatten st).tail := by
  obtain ⟨buf, yeof, chunks, reads⟩ := st
  cases buf with
  | cons c r => simp [yget, yflatten]
  | nil =>
    cases yeof with
    | true =>
      have hc : chunks = [] := h1 rfl
      subst hc
      simp [yget, yflatten]
    | false =>
      cases chunks with
      | nil => simp [yget, yflatten]
      | cons ch chs =>
        cases ch with
        | nil => exact absurd rfl (h2 [] (by simp))
        | cons c cr => simp [yget, yflatten]

/-- yskipSpace of a stream whose bytes are all whitespace followed by
anything skips exactly past the whitespace bytes. -/
theorem yskipSpace_append (ws s : List Char) (h : ∀ c ∈ ws, ySpace c = true) :
    yskipSpace (ws ++ s) = yskipSpace s := by
  induction ws with
  | nil => rfl
  | cons w ws ih =>
    simp only [List.cons_append, yskipSpace, h w (by simp)]
    exact ih fun c hc => h c (by simp [hc])

/-! ## Claim theorems -/

/-- C4: once a refill has reported zero bytes, the yeof latch is set with
the buffer empty, the latch is never cleared by yget or ypeek, and every
subsequent yget or ypeek on the latched (empty-buffer) state returns the
end-of-stream marker with the state - in particular the fread invocation
counter - completely unchanged. -/
theorem yeof_latch_terminal (st : YBuf) :
    (st.yeof = true → st.buf = [] →
      yget st = (none, st) ∧ ypeek st = (none, st))
    ∧ (st.yeof = false → st.buf = [] → st.chunks = [] →
      yget st = (none, { st with yeof := true, reads := st.reads + 1 })
      ∧ ypeek st = (none, { st with yeof := true, reads := st.reads + 1 }))
    ∧ (st.yeof = true → (yget st).2.yeof = true ∧ (ypeek st).2.yeof = true) := by
  obtain ⟨buf, yeof, chunks, reads⟩ := st
  refine ⟨?_, ?_, ?_⟩
  · rintro rfl rfl
    simp [yget, ypeek]
  · rintro rfl rfl rfl
    simp [yget, ypeek]
  · rintro rfl
    cases buf with
    | nil => simp [yget, ypeek]
    | cons c r => simp [yget, ypeek]

/-- C4 witness: at the latched state with an empty buffer both reads
return the marker and leave the state (and so the fread count) unchanged,
and from an unlatched empty state with an exhausted stream one refill
sets the latch. -/
theorem yeof_latch_terminal_witness :
    (yget ⟨[], true, [], 3⟩ = (none, ⟨[], true, [], 3⟩)
      ∧ ypeek ⟨[], true, [], 3⟩ = (none, ⟨[], true, [], 3⟩))
    ∧ yget ⟨[], false, [], 0⟩ = (none, ⟨[], true, [], 1⟩) :=
  ⟨(yeof_latch_terminal ⟨[], true, [], 3⟩).1 rfl rfl,
   ((yeof_latch_terminal ⟨[], false, [], 0⟩).2.1 rfl rfl rfl).1⟩

/-- C9: ypeek is observably non-consuming: repeating ypeek returns the
identical result and state, and whenever ypeek yields a byte (not the
end-of-stream marker) the immediately following yget yields that same
byte. -/
theorem ypeek_nonconsuming (st : YBuf) :
    ypeek (ypeek st).2 = ypeek st
    ∧ ∀ c : Char, (ypeek st).1 = some c → (yget (ypeek st).2).1 = some c := by
  obtain ⟨buf, yeof, chunks, reads⟩ := st
  cases buf with
  | cons c r => simp [ypeek, yget]
  | nil =>
    cases yeof with
    | true => simp [ypeek, yget]
    | false =>
      cases chunks with
      | nil => simp [ypeek, yget]
      | cons ch chs =>
        cases ch with
        | nil => simp [ypeek, yget]
        | cons c cr => simp [ypeek, yget]

/-- C9 witness: on a state about to deliver the byte a, ypeek yields a
and the following yget yields the same a. -/
theorem ypeek_nonconsuming_witness :
    (yget (ypeek ⟨['a'], false, [], 0⟩).2).1 = some 'a' :=
  (ypeek_nonconsuming ⟨['a'], false, [], 0⟩).2 'a' rfl

/-- C1: dispatching the format percent-d space percent-d on the input
stream holding exactly the bytes 42 returns count 1, stores 42 in the
first output slot, and leaves the second output slot at whatever value it
held before the call. -/
theorem yscanf_d_d_on_42 (a0 b0 : Int) :
    yscanf3Run "%d %d".toList "42".toList [YVal.i a0, YVal.i b0] 0 0
      = (1, [], [YVal.i 42, YVal.i b0]) := rfl

/-- C5 (the code side): the wrap-around overflow test of yparse_int
(next < x) misses overflows whose wrapped value lands at or above the
previous accumulator. On the digit run 25000000000000000000 - whose value
exceeds the signed 64-bit maximum 9223372036854775807 - yparse_int
reports no overflow and yread_ll therefore returns the garbage value
6553255926290448384 instead of the documented LLONG_MAX saturation; on a
digit run where the test does fire, such as 9999999999999999999, the
documented saturation happens. -/
theorem yparse_int_overflow_missed :
    yparse_int "25000000000000000000".toList = (6553255926290448384, false, [])
    ∧ yread_ll2 "25000000000000000000".toList = (6553255926290448384, [])
    ∧ (25000000000000000000 : Int) > 9223372036854775807
    ∧ (6553255926290448384 : Int) ≠ 9223372036854775807
    ∧ yread_ll2 "9999999999999999999".toList = (9223372036854775807, []) :=
  ⟨rfl, rfl, by norm_num, by norm_num, rfl⟩

set_option maxHeartbeats 8000000 in
/-- One-step unfolding of yscanf3Run on a whitespace format byte. -/
theorem yscanf3Run_space (f : Char) (fs s : List Char) (args : List YVal) (k cnt : Nat)
    (hsp : ySpace f = true) :
    yscanf3Run (f :: fs) s args k cnt = yscanf3Run fs (yskipSpace s) args k cnt := by
  rw [yscanf3Run.eq_def]
  split
  · simp_all
  · rename_i f' fs' heq
    injection heq with h1 h2
    subst h1
    subst h2
    rw [if_pos hsp]

set_option maxHeartbeats 2000000 in
/-- One-step unfolding of yscanf3Run on a literal (non-whitespace,
non-percent) format byte. -/
theorem yscanf3Run_lit (f : Char) (fs s : List Char) (args : List YVal) (k cnt : Nat)
    (hsp : ySpace f = false) (hpc : f ≠ '%') :
    yscanf3Run (f :: fs) s args k cnt = yscanf3Run fs s args k cnt := by
  rw [yscanf3Run.eq_def]
  split
  · simp_all
  · rename_i f' fs' heq
    injection heq with h1 h2
    subst h1
    subst h2
    rw [if_neg (by simp [hsp]), if_pos hpc]

set_option maxHeartbeats 2000000 in
/-- On the empty stream every branch of the percent dispatch of
yscanf3.h with zero prior conversions yields -1 (EOF = cnt?cnt:EOF for
the recognized tags, the invalid-format -1 for the others). -/
theorem yscanf3_pct_empty (fs : List Char) (args : List YVal) (k : Nat) :
    (yscanf3Run ('%' :: fs) [] args k 0).1 = -1 := by
  rw [yscanf3Run.eq_def]
  split
  · simp_all
  · rename_i f' fs' heq
    injection heq with h1 h2
    subst h1
    subst h2
    rw [if_neg (by decide), if_neg (by decide)]
    split <;> rfl

/-- C2: for every format specification containing at least one percent
directive, dispatching against the empty input stream returns the
end-of-input value EOF = -1, never the plain count 0 (the invalid-format
return being the same C value -1, this also covers formats whose first
directive carries an unrecognized tag). -/
theorem yscanf_empty_stream_eof (fmt : List Char) (args : List YVal) (k : Nat)
    (h : '%' ∈ fmt) : (yscanf3Run fmt [] args k 0).1 = -1 := by
  induction fmt generalizing args k with
  | nil => simp at h
  | cons f fs ih =>
    by_cases hpc : f = '%'
    · subst hpc
      exact yscanf3_pct_empty fs args k
    · have hmem : '%' ∈ fs := by
        rcases List.mem_cons.mp h with h1 | h1
        · exact absurd h1.symm hpc
        · exact h1
      by_cases hsp : ySpace f = true
      · rw [yscanf3Run_space f fs [] args k 0 hsp]
        exact ih args k hmem
      · rw [yscanf3Run_lit f fs [] args k 0 (by simpa using hsp) hpc]
        exact ih args k hmem

/-- C2 witness: the spec example - the format percent-d space percent-d
on the empty stream yields -1, the EOF sentinel, not 0. -/
theorem yscanf_empty_stream_eof_witness :
    '%' ∈ "%d %d".toList
    ∧ (yscanf3Run "%d %d".toList [] [YVal.i 0, YVal.i 0] 0 0).1 = -1 :=
  ⟨by decide, yscanf_empty_stream_eof "%d %d".toList [YVal.i 0, YVal.i 0] 0 (by decide)⟩

set_option maxHeartbeats 8000000 in
/-- One-step unfolding of hitsBadTag on a whitespace format byte. -/
theorem hitsBadTag_space (f : Char) (fs s : List Char) (hsp : ySpace f = true) :
    hitsBadTag (f :: fs) s = hitsBadTag fs (yskipSpace s) := by
  rw [hitsBadTag.eq_def]
  split
  · simp_all
  · rename_i f' fs' heq
    injection heq with h1 h2
    subst h1
    subst h2
    rw [if_pos hsp]

set_option maxHeartbeats 2000000 in
/-- One-step unfolding of hitsBadTag on a literal format byte. -/
theorem hitsBadTag_lit (f : Char) (fs s : List Char) (hsp : ySpace f = false)
    (hpc : f ≠ '%') : hitsBadTag (f :: fs) s = hitsBadTag fs s := by
  rw [hitsBadTag.eq_def]
  split
  · simp_all
  · rename_i f' fs' heq
    injection heq with h1 h2
    subst h1
    subst h2
    rw [if_neg (by simp [hsp]), if_pos hpc]

theorem hbt_d (rest s : List Char) :
    hitsBadTag ('%' :: 'd' :: rest) s =
      (match yread_int_ok s with
       | (none, _) => false
       | (some _, t) => hitsBadTag rest t) := rfl

theorem y3_d (rest s : List Char) (args : List YVal) (k cnt : Nat) :
    yscanf3Run ('%' :: 'd' :: rest) s args k cnt =
      (match yread_int_ok s with
       | (none, s1) => (yeofRet cnt, s1, args)
       | (some v, s1) => yscanf3Run rest s1 (args.set k (YVal.i v)) (k + 1) (cnt + 1)) := rfl

theorem hbt_u (rest s : List Char) :
    hitsBadTag ('%' :: 'u' :: rest) s =
      (match yread_uint_ok s with
       | (none, _) => false
       | (some _, t) => hitsBadTag rest t) := rfl

theorem y3_u (rest s : List Char) (args : List YVal) (k cnt : Nat) :
    yscanf3Run ('%' :: 'u' :: rest) s args k cnt =
      (match yread_uint_ok s with
       | (none, s1) => (yeofRet cnt, s1, args)
       | (some v, s1) => yscanf3Run rest s1 (args.set k (YVal.u v)) (k + 1) (cnt + 1)) := rfl

theorem hbt_lld (rest s : List Char) :
    hitsBadTag ('%' :: 'l' :: 'l' :: 'd' :: rest) s =
      (match yread_ll_ok s with
       | (none, _) => false
       | (some _, t) => hitsBadTag rest t) := rfl

theorem y3_lld (rest s : List Char) (args : List YVal) (k cnt : Nat) :
    yscanf3Run ('%' :: 'l' :: 'l' :: 'd' :: rest) s args k cnt =
      (match yread_ll_ok s with
       | (none, s1) => (yeofRet cnt, s1, args)
       | (some v, s1) => yscanf3Run rest s1 (args.set k (YVal.ll v)) (k + 1) (cnt + 1)) := rfl

theorem hbt_llu (rest s : List Char) :
    hitsBadTag ('%' :: 'l' :: 'l' :: 'u' :: rest) s =
      (match yread_ull_ok s with
       | (none, _) => false
       | (some _, t) => hitsBadTag rest t) := rfl

theorem y3_llu (rest s : List Char) (args : List YVal) (k cnt : Nat) :
    yscanf3Run ('%' :: 'l' :: 'l' :: 'u' :: rest) s args k cnt =
      (match yread_ull_ok s with
       | (none, s1) => (yeofRet cnt, s1, args)
       | (some v, s1) => yscanf3Run rest s1 (args.set k (YVal.ull v)) (k + 1) (cnt + 1)) := rfl

theorem hbt_f (rest s : List Char) :
    hitsBadTag ('%' :: 'f' :: rest) s =
      (match yread_double_ok s with
       | (none, _) => false
       | (some _, t) => hitsBadTag rest t) := rfl

theorem y3_f (rest s : List Char) (args : List YVal) (k cnt : Nat) :
    yscanf3Run ('%' :: 'f' :: rest) s args k cnt =
      (match yread_double_ok s with
       | (none, s1) => (yeofRet cnt, s1, args)
       | (some v, s1) => yscanf3Run rest s1 (args.set k (YVal.d v)) (k + 1) (cnt + 1)) := rfl

theorem hbt_e (rest s : List Char) :
    hitsBadTag ('%' :: 'e' :: rest) s =
      (match yread_double_ok s with
       | (none, _) => false
       | (some _, t) => hitsBadTag rest t) := rfl

theorem y3_e (rest s : List Char) (args : List YVal) (k cnt : Nat) :
    yscanf3Run ('%' :: 'e' :: rest) s args k cnt =
      (match yread_double_ok s with
       | (none, s1) => (yeofRet cnt, s1, args)
       | (some v, s1) => yscanf3Run rest s1 (args.set k (YVal.d v)) (k + 1) (cnt + 1)) := rfl

theorem hbt_g (rest s : List Char) :
    hitsBadTag ('%' :: 'g' :: rest) s =
      (match yread_double_ok s with
       | (none, _) => false
       | (some _, t) => hitsBadTag rest t) := rfl

theorem y3_g (rest s : List Char) (args : List YVal) (k cnt : Nat) :
    yscanf3Run ('%' :: 'g' :: rest) s args k cnt =
      (match yread_double_ok s with
       | (none, s1) => (yeofRet cnt, s1, args)
       | (some v, s1) => yscanf3Run rest s1 (args.set k (YVal.d v)) (k + 1) (cnt + 1)) := rfl

theorem hbt_s (rest s : List Char) :
    hitsBadTag ('%' :: 's' :: rest) s =
      (match yread_str_ok s with
       | (none, _) => false
       | (some _, t) => hitsBadTag rest t) := rfl

theorem y3_s (rest s : List Char) (args : List YVal) (k cnt : Nat) :
    yscanf3Run ('%' :: 's' :: rest) s args k cnt =
      (match yread_str_ok s with
       | (none, s1) => (yeofRet cnt, s1, args)
       | (some v, s1) => yscanf3Run rest s1 (args.set k (YVal.str v)) (k + 1) (cnt + 1)) := rfl

set_option maxHeartbeats 4000000 in
/-- C3: for every format specification and every input stream, whenever
the dispatcher reaches a percent directive whose type tag is not one of
the recognized tags (captured by the control-flow shadow hitsBadTag),
the call returns the invalid-format value -1 - whatever the count of
conversions already completed (the statement is universally quantified
over the running count cnt, and hitsBadTag carries no count at all). -/
theorem yscanf_badtag_invalid (fmt s : List Char) :
    ∀ (args : List YVal) (k cnt : Nat),
      hitsBadTag fmt s = true → (yscanf3Run fmt s args k cnt).1 = -1 := by
  induction fmt, s using hitsBadTag.induct
  case case1 x =>
    intro args k cnt h
    simp [show hitsBadTag [] x = false from rfl] at h
  case case2 f fs s hsp ih =>
    intro args k cnt h
    rw [hitsBadTag_space f fs s hsp] at h
    rw [yscanf3Run_space f fs s args k cnt hsp]
    exact ih args k cnt h
  case case3 f fs s hd hpc ih =>
    intro args k cnt h
    rw [hitsBadTag_lit f fs s (by simpa using hd) hpc] at h
    rw [yscanf3Run_lit f fs s args k cnt (by simpa using hd) hpc]
    exact ih args k cnt h
  case case4 f s hd hp rest s1 heq =>
    intro args k cnt h
    have hf : f = '%' := not_not.mp hp
    subst hf
    rw [hbt_d rest s, heq] at h
    simp at h
  case case5 f s hd hp rest v s1 heq ih =>
    intro args k cnt h
    have hf : f = '%' := not_not.mp hp
    subst hf
    rw [hbt_d rest s, heq] at h
    rw [y3_d rest s args k cnt, heq]
    exact ih (args.set k (YVal.i v)) (k + 1) (cnt + 1) h
  case case6 f s hd hp rest s1 heq =>
    intro args k cnt h
    have hf : f = '%' := not_not.mp hp
    subst hf
    rw [hbt_u rest s, heq] at h
    simp at h
  case case7 f s hd hp rest v s1 heq ih =>
    intro args k cnt h
    have hf : f = '%' := not_not.mp hp
    subst hf
    rw [hbt_u rest s, heq] at h
    rw [y3_u rest s args k cnt, heq]
    exact ih (args.set k (YVal.u v)) (k + 1) (cnt + 1) h
  case case8 f s hd hp rest s1 heq =>
    intro args k cnt h
    have hf : f = '%' := not_not.mp hp
    subst hf
    rw [hbt_lld rest s, heq] at h
    simp at h
  case case9 f s hd hp rest v s1 heq ih =>
    intro args k cnt h
    have hf : f = '%' := not_not.mp hp
    subst hf
    rw [hbt_lld rest s, heq] at h
    rw [y3_lld rest s args k cnt, heq]
    exact ih (args.set k (YVal.ll v)) (k + 1) (cnt + 1) h
  case case10 f s hd hp rest s1 heq =>
    intro args k cnt h
    have hf : f = '%' := not_not.mp hp
    subst hf
    rw [hbt_llu rest s, heq] at h
    simp at h
  case case11 f s hd hp rest v s1 heq ih =>
    intro args k cnt h
    have hf : f = '%' := not_not.mp hp
    subst hf
    rw [hbt_llu rest s, heq] at h
    rw [y3_llu rest s args k cnt, heq]
    exact ih (args.set k (YVal.ull v)) (k + 1) (cnt + 1) h
  case case12 f s hd hp tail hnd hnu =>
    intro args k cnt h
    have hf : f = '%' := not_not.mp hp
    subst hf
    rcases tail with _ | ⟨t, ts⟩
    · rfl
    · by_cases htd : t = 'd'
      · subst htd
        exact (hnd ts rfl).elim
      · by_cases htu : t = 'u'
        · subst htu
          exact (hnu ts rfl).elim
        · rw [yscanf3Run.eq_def]
          split
          · simp_all
          · rename_i f' fs' heq
            injection heq with h1 h2
            subst h1
            subst h2
            rw [if_neg (by decide), if_neg (by decide)]
            split <;> simp_all
  case case13 f s hd hp tail hld hlu hl =>
    intro args k cnt h
    have hf : f = '%' := not_not.mp hp
    subst hf
    rcases tail with _ | ⟨t, ts⟩
    · rfl
    · by_cases htl : t = 'l'
      · subst htl
        exact (hl ts rfl).elim
      · rw [yscanf3Run.eq_def]
        split
        · simp_all
        · rename_i f' fs' heq
          injection heq with h1 h2
          subst h1
          subst h2
          rw [if_neg (by decide), if_neg (by decide)]
          split <;> simp_all
  case case14 f s hd hp rest s1 heq =>
    intro args k cnt h
    have hf : f = '%' := not_not.mp hp
    subst hf
    rw [hbt_f rest s, heq] at h
    simp at h
  case case15 f s hd hp rest v s1 heq ih =>
    intro args k cnt h
    have hf : f = '%' := not_not.mp hp
    subst hf
    rw [hbt_f rest s, heq] at h
    rw [y3_f rest s args k cnt, heq]
    exact ih (args.set k (YVal.d v)) (k + 1) (cnt + 1) h
  case case16 f s hd hp rest s1 heq =>
    intro args k cnt h
    have hf : f = '%' := not_not.mp hp
    subst hf
    rw [hbt_e rest s, heq] at h
    simp at h
  case case17 f s hd hp rest v s1 heq ih =>
    intro args k cnt h
    have hf : f = '%' := not_not.mp hp
    subst hf
    rw [hbt_e rest s, heq] at h
    rw [y3_e rest s args k cnt, heq]
    exact ih (args.set k (YVal.d v)) (k + 1) (cnt + 1) h
  case case18 f s hd hp rest s1 heq =>
    intro args k cnt h
    have hf : f = '%' := not_not.mp hp
    subst hf
    rw [hbt_g rest s, heq] at h
    simp at h
  case case19 f s hd hp rest v s1 heq ih =>
    intro args k cnt h
    have hf : f = '%' := not_not.mp hp
    subst hf
    rw [hbt_g rest s, heq] at h
    rw [y3_g rest s args k cnt, heq]
    exact ih (args.set k (YVal.d v)) (k + 1) (cnt + 1) h
  case case20 f s hd hp rest s1 heq =>
    intro args k cnt h
    have hf : f = '%' := not_not.mp hp
    subst hf
    rw [hbt_s rest s, heq] at h
    simp at h
  case case21 f s hd hp rest v s1 heq ih =>
    intro args k cnt h
    have hf : f = '%' := not_not.mp hp
    subst hf
    rw [hbt_s rest s, heq] at h
    rw [y3_s rest s args k cnt, heq]
    exact ih (args.set k (YVal.str v)) (k + 1) (cnt + 1) h
  case case22 f hd hp rest =>
    intro args k cnt h
    have hf : f = '%' := not_not.mp hp
    subst hf
    simp [show hitsBadTag ('%' :: 'c' :: rest) [] = false from rfl] at h
  case case23 f hd hp rest c cr ih =>
    intro args k cnt h
    have hf : f = '%' := not_not.mp hp
    subst hf
    exact ih (args.set k (YVal.c c)) (k + 1) (cnt + 1) h
  case case24 f fs s hd hp n1 n2 n3 n4 n5 n6 n7 n8 n9 n10 n11 =>
    intro args k cnt h
    have hf : f = '%' := not_not.mp hp
    subst hf
    rw [yscanf3Run.eq_def]
    split
    · simp_all
    · rename_i f' fs' heq
      injection heq with h1 h2
      subst h1
      subst h2
      rw [if_neg (by decide), if_neg (by decide)]
      split <;> simp_all

/-- C3 witness: the format percent-d space percent-q on the input 5 3
completes one conversion and then meets the unrecognized tag q; the call
returns -1, not the partial count 1. -/
theorem yscanf_badtag_invalid_witness :
    hitsBadTag "%d %q".toList "5 3".toList = true
    ∧ (yscanf3Run "%d %q".toList "5 3".toList [YVal.i 0] 0 0).1 = -1 :=
  ⟨by decide, yscanf_badtag_invalid "%d %q".toList "5 3".toList [YVal.i 0] 0 0 (by decide)⟩

/-- C8: whitespace skipping is idempotent at dispatch level - scanning
percent-d from an input with any run of leading whitespace yields exactly
the outcome (count, remaining stream, slots) of scanning the input
without that run. -/
theorem yscanf_ws_idempotent (ws s : List Char) (args : List YVal) (k cnt : Nat)
    (h : ∀ c ∈ ws, ySpace c = true) :
    yscanf3Run "%d".toList (ws ++ s) args k cnt = yscanf3Run "%d".toList s args k cnt := by
  have e : "%d".toList = ['%', 'd'] := rfl
  rw [e, y3_d [] (ws ++ s) args k cnt, y3_d [] s args k cnt,
    show yread_int_ok (ws ++ s) = yread_int_ok s from by
      show yreadIntCore (yskipSpace (ws ++ s)) = yreadIntCore (yskipSpace s)
      rw [yskipSpace_append ws s h]]

/-- C8 witness: scanning percent-d from the input three-spaces-7 equals
scanning it from 7, and both yield count 1 with the slot set to 7. -/
theorem yscanf_ws_idempotent_witness :
    yscanf3Run "%d".toList "   7".toList [YVal.i 0] 0 0
      = yscanf3Run "%d".toList "7".toList [YVal.i 0] 0 0
    ∧ yscanf3Run "%d".toList "7".toList [YVal.i 0] 0 0 = (1, [], [YVal.i 7]) :=
  ⟨by
    have e : "   7".toList = [' ', ' ', ' '] ++ "7".toList := rfl
    rw [e]
    exact yscanf_ws_idempotent [' ', ' ', ' '] "7".toList [YVal.i 0] 0 0 (by decide),
   rfl⟩

/-- C10: when the first byte after whitespace skipping is a plus or minus
sign, the unsigned readers yread_uint_ok and yread_ull_ok fail without
consuming the sign byte (so without writing the output slot, which the
Option-valued embedding renders as none), while the signed readers
yread_int_ok and yread_ll_ok accept the sign when a digit follows it. -/
theorem yread_unsigned_rejects_sign (s rest : List Char) (c : Char)
    (h1 : yskipSpace s = c :: rest) (h2 : c = '+' ∨ c = '-') :
    yread_uint_ok s = (none, c :: rest)
    ∧ yread_ull_ok s = (none, c :: rest)
    ∧ (∀ d rest2, rest = d :: rest2 → d.isDigit = true →
        (yread_int_ok s).1.isSome = true ∧ (yread_ll_ok s).1.isSome = true) := by
  have hcd : c.isDigit = false := by
    rcases h2 with rfl | rfl <;> rfl
  have hcp : (c = '+' || c = '-') = true := by
    rcases h2 with rfl | rfl <;> simp
  refine ⟨?_, ?_, ?_⟩
  · show yreadUIntCore (yskipSpace s) = (none, c :: rest)
    rw [h1]
    simp [yreadUIntCore, hcd]
  · show yreadULLCore (yskipSpace s) = (none, c :: rest)
    rw [h1]
    simp [yreadULLCore, hcd]
  · rintro d rest2 rfl hd
    constructor
    · show (yreadIntCore (yskipSpace s)).1.isSome = true
      rw [h1]
      rcases hL : yreadIntLoop 0 (d :: rest2) with ⟨x, s3⟩
      simp [yreadIntCore, hcp, hd, hL]
    · show (yreadLLCore (yskipSpace s)).1.isSome = true
      rw [h1]
      rcases hL : yreadIntLoop 0 (d :: rest2) with ⟨x, s3⟩
      simp [yreadLLCore, hcp, hd, hL]

/-- C10 witness: on the input space-plus-5 the unsigned readers fail
leaving the plus sign unconsumed, and the signed reader succeeds. -/
theorem yread_unsigned_rejects_sign_witness :
    yread_uint_ok " +5".toList = (none, ['+', '5'])
    ∧ yread_ull_ok " +5".toList = (none, ['+', '5'])
    ∧ (yread_int_ok " +5".toList).1.isSome = true
    ∧ (yread_ll_ok " +5".toList).1.isSome = true := by
  have h := yread_unsigned_rejects_sign " +5".toList ['5'] '+' rfl (Or.inl rfl)
  exact ⟨h.1, h.2.1, (h.2.2 '5' [] rfl rfl).1, (h.2.2 '5' [] rfl rfl).2⟩

set_option maxHeartbeats 8000000 in
/-- One-step unfolding of yscanf2Run on a whitespace format byte: it only
sets the deferred skip flag; the input stream is untouched. -/
theorem yscanf2Run_space (f : Char) (fs s : List Char) (args : List YVal)
    (k cnt : Nat) (skip : Bool) (hsp : ySpace f = true) :
    yscanf2Run (f :: fs) s args k cnt skip = yscanf2Run fs s args k cnt true := by
  rw [yscanf2Run.eq_def]
  split
  · simp_all
  · rename_i f' fs' heq
    injection heq with h1 h2
    subst h1
    subst h2
    rw [if_pos hsp]

/-- C6 counterexample: in yscanf3.h the whitespace directive consumes
input immediately - dispatching the lone-space format against the input
space space x consumes the two spaces even though no conversion directive
follows, refuting the deferred-flag reading for the v3 dispatcher. -/
theorem ws_directive_consumes_v3 :
    yscanf3Run " ".toList "  x".toList [] 0 0 = (0, ['x'], [])
    ∧ "  x".toList ≠ ['x'] := ⟨rfl, by decide⟩

/-- C6 amended: in the v2 dispatcher (yscanf2.h) a whitespace directive
only sets the pending skip flag - a whitespace run in the format merely
turns the flag on and the stream is untouched until the next conversion
directive, and an all-whitespace format consumes no input at all -
whereas the v3 dispatcher (yscanf3.h) performs the input whitespace skip
immediately at the directive. -/
theorem ws_directive_deferred_v2 :
    (∀ (ws fmt s : List Char) (args : List YVal) (k cnt : Nat) (skip : Bool),
        ws ≠ [] → (∀ c ∈ ws, ySpace c = true) →
        yscanf2Run (ws ++ fmt) s args k cnt skip = yscanf2Run fmt s args k cnt true)
    ∧ (∀ (ws s : List Char) (args : List YVal) (k cnt : Nat) (skip : Bool),
        (∀ c ∈ ws, ySpace c = true) →
        yscanf2Run ws s args k cnt skip = ((cnt : Int), s, args))
    ∧ (∀ (f : Char) (fmt s : List Char) (args : List YVal) (k cnt : Nat),
        ySpace f = true →
        yscanf3Run (f :: fmt) s args k cnt = yscanf3Run fmt (yskipSpace s) args k cnt) := by
  have part1 : ∀ (ws fmt s : List Char) (args : List YVal) (k cnt : Nat) (skip : Bool),
      ws ≠ [] → (∀ c ∈ ws, ySpace c = true) →
      yscanf2Run (ws ++ fmt) s args k cnt skip = yscanf2Run fmt s args k cnt true := by
    intro ws
    induction ws with
    | nil => intro fmt s args k cnt skip hne _; exact absurd rfl hne
    | cons w ws ih =>
      intro fmt s args k cnt skip _ hall
      rw [List.cons_append, yscanf2Run_space w (ws ++ fmt) s args k cnt skip (hall w (by simp))]
      rcases ws with _ | ⟨w2, ws2⟩
      · rfl
      · exact ih fmt s args k cnt true (by simp) fun c hc => hall c (by simp [hc])
  refine ⟨part1, ?_, fun f fmt s args k cnt h => yscanf3Run_space f fmt s args k cnt h⟩
  intro ws s args k cnt skip hall
  rcases ws with _ | ⟨w, ws2⟩
  · rfl
  · rw [show (w :: ws2 : List Char) = (w :: ws2) ++ [] from by simp]
    rw [part1 (w :: ws2) [] s args k cnt skip (by simp) hall]
    rfl

/-- C6 witness: the lone-space v2 format consumes nothing from the input
space space x, and a whitespace directive before percent-d is exactly the
flagged dispatch of percent-d. -/
theorem ws_directive_deferred_v2_witness :
    yscanf2Run " ".toList "  x".toList [] 0 0 false = (0, "  x".toList, [])
    ∧ yscanf2Run " %d".toList "  7".toList [YVal.i 0] 0 0 false
      = yscanf2Run "%d".toList "  7".toList [YVal.i 0] 0 0 true := by
  constructor
  · have e : " ".toList = [' '] := rfl
    rw [e]
    exact ws_directive_deferred_v2.2.1 [' '] "  x".toList [] 0 0 false (by decide)
  · have e : " %d".toList = [' '] ++ "%d".toList := rfl
    rw [e]
    exact ws_directive_deferred_v2.1 [' '] "%d".toList "  7".toList [YVal.i 0] 0 0 false
      (by simp) (by decide)

/-- The inner line loop computes the takeWhile / dropWhile
characterisation: it appends to acc the non-terminator run of the input
truncated to the remaining capacity, and leaves the input past one
consumed terminator. -/
theorem ygetLoop_spec (maxlen : Nat) :
    ∀ (s : List Char) (c : Char) (acc : List Char),
      ygetLoop maxlen acc c s =
        (acc ++ ((c :: s).takeWhile fun x => !(yIsTerm x)).take (maxlen - 1 - acc.length),
         lineSpecRest ((c :: s).dropWhile fun x => !(yIsTerm x))) := by
  intro s
  induction s with
  | nil =>
    intro c acc
    by_cases hn : c = '\n'
    · subst hn
      simp [ygetLoop, yIsTerm, lineSpecRest]
    · by_cases hr : c = '\r'
      · subst hr
        simp [ygetLoop, yIsTerm, lineSpecRest]
      · have hterm : yIsTerm c = false := by simp [yIsTerm, hn, hr]
        simp [ygetLoop, hn, hr, hterm, lineSpecRest]
        rcases Nat.lt_or_ge acc.length (maxlen - 1) with hlt | hge
        · rw [if_pos hlt]
          have e : maxlen - 1 - acc.length = (maxlen - 1 - acc.length - 1) + 1 := by omega
          rw [e]
          simp
        · rw [if_neg (by omega)]
          have e : maxlen - 1 - acc.length = 0 := by omega
          simp [e]
  | cons d r ih =>
    intro c acc
    by_cases hn : c = '\n'
    · subst hn
      simp [ygetLoop, yIsTerm, lineSpecRest]
    · by_cases hr : c = '\r'
      · subst hr
        by_cases hd : d = '\n'
        · subst hd
          simp [ygetLoop, yIsTerm, lineSpecRest]
        · simp [ygetLoop, yIsTerm, lineSpecRest, hd]
      · have hterm : yIsTerm c = false := by simp [yIsTerm, hn, hr]
        have lhs : ygetLoop maxlen acc c (d :: r)
            = ygetLoop maxlen (if acc.length < maxlen - 1 then acc ++ [c] else acc) d r := by
          rw [ygetLoop, if_neg hn, if_neg hr]
        rw [lhs, ih d (if acc.length < maxlen - 1 then acc ++ [c] else acc)]
        have tw : ((c :: d :: r).takeWhile fun x => !(yIsTerm x))
            = c :: ((d :: r).takeWhile fun x => !(yIsTerm x)) := by
          simp [List.takeWhile, hterm]
        have dw : ((c :: d :: r).dropWhile fun x => !(yIsTerm x))
            = ((d :: r).dropWhile fun x => !(yIsTerm x)) := by
          simp [List.dropWhile, hterm]
        rw [tw, dw]
        rcases Nat.lt_or_ge acc.length (maxlen - 1) with hlt | hge
        · rw [if_pos hlt]
          have e : maxlen - 1 - acc.length = (maxlen - 1 - (acc ++ [c]).length) + 1 := by
            simp
            omega
          rw [e, List.take_succ_cons]
          simp
        · rw [if_neg (by omega)]
          have e1 : maxlen - 1 - acc.length = 0 := by omega
          rw [e1]
          simp [e1]

/-- C7: the capacity-aware line reader ygetline_ok coincides with its
specification ygetlineSpec on every capacity and stream: it skips no
leading whitespace (spaces and tabs are part of the takeWhile run), it
consumes the content up to and one terminator (carriage return plus
newline acting as one), it stores at most maxlen - 1 bytes while
consuming the whole run, and it reports no token exactly when the stream
is empty before any byte is read. -/
theorem ygetline_ok_correct (maxlen : Nat) (s : List Char) :
    ygetline_ok maxlen s = ygetlineSpec maxlen s
    ∧ ((ygetline_ok maxlen s).1 = none ↔ s = []) := by
  have main : ygetline_ok maxlen s = ygetlineSpec maxlen s := by
    cases s with
    | nil => rfl
    | cons c r =>
      show (match ygetLoop maxlen [] c r with
            | (line, rest) => (some line, rest)) = _
      rw [ygetLoop_spec maxlen r c []]
      simp [ygetlineSpec]
  refine ⟨main, ?_⟩
  rw [main]
  cases s with
  | nil => simp [ygetlineSpec]
  | cons c r => simp [ygetlineSpec]
